import Mathlib

/-
Verification development for the LecToCal lesson-text extraction core
(src/lectocal/lectio.py).

Modelling conventions:
* Python strings are `List Char`; `lchars` converts a Lean string literal.
* The concrete regular expressions of the source are implemented as
  dedicated backtracking matchers over `List Char` that follow Python
  `re.search` semantics (leftmost starting position; at a position,
  alternatives are tried in pattern order, greedy pieces longest-first).
  `\d` is modelled as an ASCII digit.
* `datetime.date` / `datetime.time` are `PyDate` / `PyTime`; a Python value
  that is `None`, a `date`, or a `datetime` is `PyTimeVal`.
* Raising an exception is returning `Except.error`; the error kinds mirror
  the exception classes of the source.
* `str.splitlines` is modelled for the line separator `'\n'`.
-/

def lchars (s : String) : List Char := s.data

/-- The status values of `LESSON_STATUS`; Python `None` (no status seen)
plays the role of `normal`. -/
inductive LessonStatus where
  | normal
  | changed
  | cancelled
deriving DecidableEq, Repr

/-- A Python `datetime.date`. -/
structure PyDate where
  year : Nat
  month : Nat
  day : Nat
deriving DecidableEq, Repr

/-- A Python `datetime.time` (the source only ever has hours and minutes). -/
structure PyTime where
  hour : Nat
  minute : Nat
deriving DecidableEq, Repr

/-- A Python value that is `None`, a `date`, or a `datetime`. -/
inductive PyTimeVal where
  | none
  | date (d : PyDate)
  | dateTime (d : PyDate) (t : PyTime)
deriving DecidableEq, Repr

/-- The exception kinds of `lectio.py` that the modelled code can raise,
together with the built-in Python errors reachable from it. -/
inductive PyError where
  | invalidStatus
  | invalidTimeLine
  | invalidLocation
  | invalidGroups
  | invalidRessources
  | valueError
  | typeError
deriving DecidableEq, Repr

/-- Consume the literal `p` from the front of `s`; `some rest` on success.
Used to model literal pieces of the regular expressions. -/
def dropLit : List Char → List Char → Option (List Char)
  | [], s => some s
  | _ :: _, [] => Option.none
  | p :: ps, c :: cs => if c = p then dropLit ps cs else Option.none

/-- `re.search` driver: try the matcher `m` at every start position, leftmost
first (Python tries every index including the one past the last char). -/
def searchO {β : Type} (m : List Char → Option β) : List Char → Option β
  | [] => m []
  | c :: r => m (c :: r) <|> searchO m r

/-- Substring test, modelling Python `str.find(sub) != -1` and
`re.search` of a literal pattern. -/
def containsSub (pat l : List Char) : Bool :=
  (searchO (fun s => (dropLit pat s).map fun _ => ()) l).isSome

/-- `\d{2}` at the front: exactly two ASCII digits. -/
def take2Digits : List Char → Option (List Char × List Char)
  | a :: b :: r => if a.isDigit && b.isDigit then some ([a, b], r) else Option.none
  | _ => Option.none

/-- `\d{4}` at the front: exactly four ASCII digits. -/
def take4Digits : List Char → Option (List Char × List Char)
  | a :: b :: c :: d :: r =>
      if a.isDigit && b.isDigit && c.isDigit && d.isDigit then
        some ([a, b, c, d], r)
      else Option.none
  | _ => Option.none

/-- `\d{1,2}` in continuation style: greedy, so two digits are tried before
one.  The continuation receives the consumed token and the rest. -/
def digits12 {α : Type} (s : List Char) (k : List Char → List Char → Option α) : Option α :=
  (match take2Digits s with
   | some (t, r) => k t r
   | Option.none => Option.none) <|>
  (match s with
   | c :: r => if c.isDigit then k [c] r else Option.none
   | [] => Option.none)

/-- `\d{1,2}/\d{1,2}-\d{4}` in continuation style (the date token of both
time-line patterns). -/
def dateTok {α : Type} (s : List Char) (k : List Char → List Char → Option α) : Option α :=
  digits12 s fun d r1 =>
    match r1 with
    | '/' :: r2 =>
      digits12 r2 fun m r3 =>
        match r3 with
        | '-' :: r4 =>
          match take4Digits r4 with
          | some (y, r5) => k (d ++ '/' :: m ++ '-' :: y) r5
          | Option.none => Option.none
        | _ => Option.none
    | _ => Option.none

/-- `\d{2}:\d{2}` in continuation style (the clock-time token). -/
def timeTok {α : Type} (s : List Char) (k : List Char → List Char → Option α) : Option α :=
  match s with
  | a :: b :: ':' :: c :: d :: r =>
      if a.isDigit && b.isDigit && c.isDigit && d.isDigit then
        k [a, b, ':', c, d] r
      else Option.none
  | _ => Option.none

/-- ` ?\d{2}:\d{2}`: greedy optional space, then a clock-time token. -/
def optSpaceTime {α : Type} (s : List Char) (k : List Char → List Char → Option α) : Option α :=
  (match s with
   | ' ' :: r => timeTok r k
   | _ => Option.none) <|>
  timeTok s k

/-- One attempt of the `_is_time_line` pattern
`\d{1,2}/\d{1,2}-\d{4} (?:Hele dagen|\d{2}:\d{2} til (?:\d{1,2}/\d{1,2}-\d{4} )?\d{2}:\d{2})`
at the current position. -/
def isTimeLineAt (s : List Char) : Option Unit :=
  dateTok s fun _ r =>
    match r with
    | ' ' :: r1 =>
      (match dropLit (lchars "Hele dagen") r1 with
       | some _ => some ()
       | Option.none => Option.none) <|>
      (timeTok r1 fun _ r2 =>
        match dropLit (lchars " til ") r2 with
        | some r3 =>
          (dateTok r3 fun _ r4 =>
            match r4 with
            | ' ' :: r5 => timeTok r5 fun _ _ => some ()
            | _ => Option.none) <|>
          (timeTok r3 fun _ _ => some ())
        | Option.none => Option.none)
    | _ => Option.none

/-- `_is_time_line` of the source: `re.search` of the time grammar. -/
def _is_time_line (line : List Char) : Bool :=
  (searchO isTimeLineAt line).isSome

/-- The capture groups of the `_get_time_from_line` pattern
`(\d{1,2}/\d{1,2}-\d{4})(?: (\d{2}:\d{2}) til (\d{1,2}/\d{1,2}-\d{4})? ?(\d{2}:\d{2}))?`.
`rest` mirrors the optional outer group: when absent, groups 2-4 are all
absent; inside it, group 3 is itself optional. -/
structure TimeCaps where
  g1 : List Char
  rest : Option (List Char × Option (List Char) × List Char)
deriving DecidableEq, Repr

def TimeCaps.group2 (c : TimeCaps) : Option (List Char) := c.rest.map (·.1)

def TimeCaps.group3 (c : TimeCaps) : Option (List Char) := c.rest.bind (·.2.1)

def TimeCaps.group4 (c : TimeCaps) : Option (List Char) := c.rest.map (·.2.2)

/-- One attempt of the `_get_time_from_line` pattern at the current
position, producing the capture groups. -/
def timeCapsAt (s : List Char) : Option TimeCaps :=
  dateTok s fun g1 r =>
    (match r with
     | ' ' :: r1 =>
       timeTok r1 fun g2 r2 =>
         match dropLit (lchars " til ") r2 with
         | some r3 =>
           (dateTok r3 fun g3 r4 =>
             optSpaceTime r4 fun g4 _ => some ⟨g1, some (g2, some g3, g4)⟩) <|>
           (optSpaceTime r3 fun g4 _ => some ⟨g1, some (g2, Option.none, g4)⟩)
         | Option.none => Option.none
     | _ => Option.none) <|>
    some ⟨g1, Option.none⟩

/-- Proleptic-Gregorian leap year test as used by `datetime`. -/
def isLeapYear (y : Nat) : Bool :=
  y % 4 == 0 && (y % 100 != 0 || y % 400 == 0)

def daysInMonth (y m : Nat) : Nat :=
  if m = 2 then (if isLeapYear y then 29 else 28)
  else if m = 4 ∨ m = 6 ∨ m = 9 ∨ m = 11 then 30
  else 31

def digitsToNat (l : List Char) : Nat :=
  l.foldl (fun n c => n * 10 + (c.toNat - '0'.toNat)) 0

def spanDigits (s : List Char) : List Char × List Char :=
  (s.takeWhile (·.isDigit), s.dropWhile (·.isDigit))

/-- `datetime.datetime.strptime(t, "%d/%m-%Y").date()`: `none` models a
raised `ValueError` (bad shape, unconverted data, or an invalid calendar
date; `datetime` years run from 1 to 9999). -/
def strptimeDate (t : List Char) : Option PyDate :=
  let (ds, r1) := spanDigits t
  match r1 with
  | '/' :: r2 =>
    let (ms, r3) := spanDigits r2
    match r3 with
    | '-' :: r4 =>
      let (ys, r5) := spanDigits r4
      if ds ≠ [] ∧ ds.length ≤ 2 ∧ ms ≠ [] ∧ ms.length ≤ 2 ∧
         ys ≠ [] ∧ ys.length ≤ 4 ∧ r5 = [] then
        let d := digitsToNat ds
        let m := digitsToNat ms
        let y := digitsToNat ys
        if 1 ≤ y ∧ 1 ≤ m ∧ m ≤ 12 ∧ 1 ≤ d ∧ d ≤ daysInMonth y m then
          some ⟨y, m, d⟩
        else Option.none
      else Option.none
    | _ => Option.none
  | _ => Option.none

/-- `datetime.datetime.strptime(t, "%H:%M").time()`: `none` models a raised
`ValueError`. -/
def strptimeTime (t : List Char) : Option PyTime :=
  let (hs, r1) := spanDigits t
  match r1 with
  | ':' :: r2 =>
    let (ms, r3) := spanDigits r2
    if hs ≠ [] ∧ hs.length ≤ 2 ∧ ms ≠ [] ∧ ms.length ≤ 2 ∧ r3 = [] then
      let h := digitsToNat hs
      let m := digitsToNat ms
      if h ≤ 23 ∧ m ≤ 59 then some ⟨h, m⟩ else Option.none
    else Option.none
  | _ => Option.none

/-- `_get_date_from_match`: a falsy argument (no capture, or the empty
string) gives `None`; otherwise `strptime` runs and may raise. -/
def _get_date_from_match : Option (List Char) → Except PyError (Option PyDate)
  | Option.none => .ok Option.none
  | some t =>
    if t = [] then .ok Option.none
    else
      match strptimeDate t with
      | some d => .ok (some d)
      | Option.none => .error .valueError

/-- `_get_time_from_match`: a falsy argument gives `None`; otherwise
`strptime` runs and may raise. -/
def _get_time_from_match : Option (List Char) → Except PyError (Option PyTime)
  | Option.none => .ok Option.none
  | some t =>
    if t = [] then .ok Option.none
    else
      match strptimeTime t with
      | some v => .ok (some v)
      | Option.none => .error .valueError

/-- A Python `date`-or-`None` value as a `PyTimeVal`. -/
def pyOfDate : Option PyDate → PyTimeVal
  | some d => .date d
  | Option.none => .none

/-- `datetime.datetime.combine(d, t)`; combining with `None` is a Python
`TypeError` (unreachable from the source, kept for faithfulness). -/
def combineOpt (d : Option PyDate) (t : PyTime) : Except PyError PyTimeVal :=
  match d with
  | some d => .ok (.dateTime d t)
  | Option.none => .error .typeError

/-- `_get_time_from_line` of the source. -/
def _get_time_from_line (line : List Char) :
    Except PyError (PyTimeVal × PyTimeVal × Bool) :=
  match searchO timeCapsAt line with
  | Option.none => .error .invalidTimeLine
  | some m =>
    match _get_date_from_match (some m.g1) with
    | .error e => .error e
    | .ok start_date =>
      match _get_time_from_match m.group2 with
      | .error e => .error e
      | .ok start_time =>
        match (match start_time with
               | some t => (combineOpt start_date t).map (fun v => (v, false))
               | Option.none => Except.ok (pyOfDate start_date, true)) with
        | .error e => .error e
        | .ok (start, is_top) =>
          match _get_date_from_match m.group3 with
          | .error e => .error e
          | .ok end_date0 =>
            match _get_time_from_match m.group4 with
            | .error e => .error e
            | .ok end_time =>
              let end_date : Option PyDate :=
                match end_date0 with
                | some d => some d
                | Option.none => start_date
              match (match end_time with
                     | some t => combineOpt end_date t
                     | Option.none => Except.ok (pyOfDate end_date)) with
              | .error e => .error e
              | .ok endv => .ok (start, endv, is_top)

example : _is_time_line (lchars "14/3-2016 Hele dagen") = true := by decide

example : _is_time_line (lchars "8/4-2016 17:30 til 9/4-2016 01:00") = true := by decide

example : _is_time_line (lchars "Hold: 1a") = false := by decide

example :
    _get_time_from_line (lchars "14/3-2016 Hele dagen") =
      .ok (.date ⟨2016, 3, 14⟩, .date ⟨2016, 3, 14⟩, true) := rfl

example :
    _get_time_from_line (lchars "7/12-2015 10:00 til 11:30") =
      .ok (.dateTime ⟨2015, 12, 7⟩ ⟨10, 0⟩, .dateTime ⟨2015, 12, 7⟩ ⟨11, 30⟩, false) := rfl

example :
    _get_time_from_line (lchars "8/4-2016 17:30 til 9/4-2016 01:00") =
      .ok (.dateTime ⟨2016, 4, 8⟩ ⟨17, 30⟩, .dateTime ⟨2016, 4, 9⟩ ⟨1, 0⟩, false) := rfl

example : _is_time_line (lchars "31/2-2016 Hele dagen") = true := by decide

example :
    _get_time_from_line (lchars "31/2-2016 Hele dagen") = .error .valueError := rfl

/-- One attempt of the `_is_status_line` pattern `Ændret!|Aflyst!` at the
current position (alternatives in pattern order). -/
def statusAt (s : List Char) : Option Unit :=
  match dropLit (lchars "Ændret!") s with
  | some _ => some ()
  | Option.none =>
    match dropLit (lchars "Aflyst!") s with
    | some _ => some ()
    | Option.none => Option.none

/-- `_is_status_line` of the source: `re.search(r"Ændret!|Aflyst!", line)`. -/
def _is_status_line (line : List Char) : Bool :=
  (searchO statusAt line).isSome

/-- `_get_status_from_line` of the source: the dictionary lookup
`LESSON_STATUS[line]`, raising `InvalidStatusError` on a missing key. -/
def _get_status_from_line (line : List Char) : Except PyError LessonStatus :=
  if line = lchars "Ændret!" then .ok .changed
  else if line = lchars "Aflyst!" then .ok .cancelled
  else .error .invalidStatus

/-- One attempt of the pattern `Lokaler?: ` at the current position (greedy
`r?`: the branch with the `r` is tried first). -/
def locAt (s : List Char) : Option Unit :=
  match dropLit (lchars "Lokale") s with
  | Option.none => Option.none
  | some r =>
    (dropLit (lchars "r: ") r).map (fun _ => ()) <|>
    (dropLit (lchars ": ") r).map fun _ => ()

/-- `_is_location_line` of the source: `re.search(r"Lokaler?: ", line)`. -/
def _is_location_line (line : List Char) : Bool :=
  (searchO locAt line).isSome

/-- One attempt of `Lokaler?: (.*)` at the current position; the capture is
everything up to the end of the line (`.` does not cross a newline). -/
def locCapAt (s : List Char) : Option (List Char) :=
  match dropLit (lchars "Lokale") s with
  | Option.none => Option.none
  | some r =>
    (dropLit (lchars "r: ") r).map (·.takeWhile (· ≠ '\n')) <|>
    (dropLit (lchars ": ") r).map (·.takeWhile (· ≠ '\n'))

/-- `_get_location_from_line` of the source. -/
def _get_location_from_line (line : List Char) : Except PyError (List Char) :=
  match searchO locCapAt line with
  | some v => .ok v
  | Option.none => .error .invalidLocation

/-- `_is_groups_line` of the source: `line.startswith("Hold: ")`. -/
def _is_groups_line (line : List Char) : Bool :=
  (lchars "Hold: ").isPrefixOf line

/-- `_get_groups_from_line` of the source: `re.search(r"Hold: (.*)", line)`. -/
def _get_groups_from_line (line : List Char) : Except PyError (List Char) :=
  match searchO (fun s => (dropLit (lchars "Hold: ") s).map (·.takeWhile (· ≠ '\n'))) line with
  | some v => .ok v
  | Option.none => .error .invalidGroups

/-- `_is_ressources_line` of the source: `line.startswith("Ressourcer: ")`. -/
def _is_ressources_line (line : List Char) : Bool :=
  (lchars "Ressourcer: ").isPrefixOf line

/-- `_get_ressources_from_line` of the source:
`re.search(r"Ressourcer: (.*)", line)`. -/
def _get_ressources_from_line (line : List Char) : Except PyError (List Char) :=
  match searchO (fun s => (dropLit (lchars "Ressourcer: ") s).map (·.takeWhile (· ≠ '\n'))) line with
  | some v => .ok v
  | Option.none => .error .invalidRessources

/-- Split on `'\n'`, keeping empty pieces and a (possibly empty) final
piece. -/
def splitOnNL : List Char → List (List Char)
  | [] => [[]]
  | '\n' :: r => [] :: splitOnNL r
  | c :: r =>
    match splitOnNL r with
    | [] => [[c]]
    | h :: t => (c :: h) :: t

/-- Python `str.splitlines()` for the separator `'\n'`: the empty string
gives no lines, and a trailing newline does not open a final empty line. -/
def pySplitlines (s : List Char) : List (List Char) :=
  if s = [] then []
  else if s.getLast? = some '\n' then (splitOnNL s).dropLast
  else splitOnNL s

/-- `SPACER` of the source: `" • "`. -/
def SPACER : List Char := lchars " • "

/-- `_add_line_to_text` of the source. -/
def _add_line_to_text (line text : List Char) : List Char :=
  (if text ≠ [] then text ++ ['\n'] else text) ++ line

/-- `_append_section_to_summary` of the source. -/
def _append_section_to_summary (sec summary : List Char) : List Char :=
  summary ++ (if summary ≠ [] then SPACER else []) ++ sec

/-- `_prepend_section_to_summary` of the source. -/
def _prepend_section_to_summary (sec summary : List Char) : List Char :=
  sec ++ (if summary ≠ [] then SPACER else []) ++ summary

theorem dropLit_eq_some {p s r : List Char} :
    dropLit p s = some r ↔ s = p ++ r := by
  induction p generalizing s with
  | nil => simp [dropLit]
  | cons a ps ih =>
    cases s with
    | nil => simp [dropLit]
    | cons c cs =>
      by_cases h : c = a
      · subst h
        simp [dropLit, ih]
      · simp [dropLit, h, Ne.symm h]

theorem dropLit_length {p s r : List Char} (h : dropLit p s = some r) :
    s.length = p.length + r.length := by
  rw [dropLit_eq_some.mp h, List.length_append]

/-- Helper for `replaceLaerere`: a positive `skip` drops that many further
characters of an occurrence already recognised. -/
def replaceLaerereGo : Nat → List Char → List Char
  | _, [] => []
  | skip + 1, _ :: rest => replaceLaerereGo skip rest
  | 0, c :: rest =>
    if (dropLit (lchars "Lærere: ") (c :: rest)).isSome then
      replaceLaerereGo 7 rest
    else c :: replaceLaerereGo 0 rest

/-- `summary.replace("Lærere: ", "")`: remove every (leftmost,
non-overlapping) occurrence of the literal.  An occurrence is 8 characters
long, so recognising one drops the current character and the next 7. -/
def replaceLaerere (s : List Char) : List Char :=
  replaceLaerereGo 0 s

/-- One attempt of the pattern `Lærer: [^(]*\\(([^)]*)\\)` at the current
position; on success returns the capture and the rest after the match. -/
def matchTeacherAt (s : List Char) : Option (List Char × List Char) :=
  match dropLit (lchars "Lærer: ") s with
  | Option.none => Option.none
  | some r1 =>
    match r1.dropWhile (· ≠ '(') with
    | '(' :: r3 =>
      match r3.dropWhile (· ≠ ')') with
      | ')' :: r5 => some (r3.takeWhile (· ≠ ')'), r5)
      | _ => Option.none
    | _ => Option.none

theorem matchTeacherAt_length {s g r : List Char}
    (h : matchTeacherAt s = some (g, r)) : r.length < s.length := by
  unfold matchTeacherAt at h
  split at h
  · simp at h
  · rename_i r1 hd
    split at h
    · rename_i r3 hw
      split at h
      · rename_i r5 hw2
        have hr1 : r1.length < s.length := by
          have := dropLit_length hd
          have h7 : (lchars "Lærer: ").length = 7 := by decide
          omega
        have hr3 : r3.length < r1.length := by
          have := (List.dropWhile_sublist (l := r1) (fun x => decide (x ≠ '('))).length_le
          rw [hw] at this
          simp at this
          omega
        have hr5 : r5.length < r3.length := by
          have := (List.dropWhile_sublist (l := r3) (fun x => decide (x ≠ ')'))).length_le
          rw [hw2] at this
          simp at this
          omega
        simp only [Option.some.injEq, Prod.mk.injEq] at h
        obtain ⟨h1, h2⟩ := h
        subst h2
        omega
      · simp at h
    · simp at h

/-- Helper for `subTeacher`: a positive `skip` drops that many further
characters of an occurrence already recognised. -/
def subTeacherGo : Nat → List Char → List Char
  | _, [] => []
  | skip + 1, _ :: rest => subTeacherGo skip rest
  | 0, c :: rest =>
    match matchTeacherAt (c :: rest) with
    | some (g1, after) =>
      g1 ++ subTeacherGo ((c :: rest).length - after.length - 1) rest
    | Option.none => c :: subTeacherGo 0 rest

/-- `re.sub(r"Lærer: [^(]*\(([^)]*)\)", r"\1", summary)`: every leftmost,
non-overlapping occurrence is replaced by its capture group.  `after` is
the suffix just past the occurrence (`matchTeacherAt` only ever drops from
the front), so the scan skips `length - after.length` characters. -/
def subTeacher (s : List Char) : List Char :=
  subTeacherGo 0 s

/-- Lines 299-300 of the source: the two summary clean-ups, in order. -/
def cleanupSummary (s : List Char) : List Char :=
  subTeacher (replaceLaerere s)

/-- The mutable locals of `_extract_lesson_info` that the per-line loop
updates (`status`, `event_title` and `offset` are fixed before the loop). -/
structure ExtractState where
  summary : List Char
  description : List Char
  location : Option (List Char)
  groups : List Char
  ressources : List Char
  start_time : PyTimeVal
  end_time : PyTimeVal
  is_top : Bool
  header_section : Bool
deriving DecidableEq, Repr

/-- The loop state at entry of the `for line in lines[offset:]` loop. -/
def initExtractState : ExtractState :=
  { summary := [], description := [], location := Option.none, groups := [],
    ressources := [], start_time := .none, end_time := .none,
    is_top := false, header_section := true }

/-- The `for line in lines[offset:]` loop of `_extract_lesson_info`
(source lines 280-296), with the line classifier chain in source order. -/
def extractLoop : ExtractState → List (List Char) → Except PyError ExtractState
  | st, [] => .ok st
  | st, line :: rest =>
    if st.header_section then
      if line = [] then extractLoop { st with header_section := false } rest
      else if _is_time_line line then
        match _get_time_from_line line with
        | .error e => .error e
        | .ok (s, e, top) =>
          extractLoop { st with start_time := s, end_time := e, is_top := top } rest
      else if _is_location_line line then
        match _get_location_from_line line with
        | .error e => .error e
        | .ok l => extractLoop { st with location := some l } rest
      else if _is_groups_line line then
        match _get_groups_from_line line with
        | .error e => .error e
        | .ok g => extractLoop { st with groups := g } rest
      else if _is_ressources_line line then
        match _get_ressources_from_line line with
        | .error e => .error e
        | .ok rs => extractLoop { st with ressources := rs } rest
      else
        extractLoop { st with summary := _append_section_to_summary line st.summary } rest
    else
      extractLoop { st with description := _add_line_to_text line st.description } rest

/-- The status/event-title stripping of `_extract_lesson_info` (source
lines 268-277): returns the status, the event title (`[]` when none was
taken) and the offset into the line list. -/
def stripHeader (lines : List (List Char)) :
    Except PyError (LessonStatus × List Char × Nat) :=
  if lines.length ≥ 2 then
    if _is_status_line (lines.getD 0 []) then
      match _get_status_from_line (lines.getD 0 []) with
      | .error e => .error e
      | .ok st =>
        if _is_time_line (lines.getD 1 []) then .ok (st, [], 1)
        else .ok (st, lines.getD 1 [], 2)
    else
      if _is_time_line (lines.getD 0 []) then .ok (.normal, [], 0)
      else .ok (.normal, lines.getD 0 [], 1)
  else .ok (.normal, [], 0)

/-- Everything `_extract_lesson_info` has computed just before the
composition block at source line 302: the cleaned summary and the raw
parts that the composition combines. -/
structure PreInfo where
  summary : List Char
  status : LessonStatus
  start_time : PyTimeVal
  end_time : PyTimeVal
  location : Option (List Char)
  description : List Char
  groups : List Char
  ressources : List Char
  event_title : List Char
  is_top : Bool
deriving DecidableEq, Repr

/-- `_extract_lesson_info` up to (and including) the summary clean-up at
source lines 299-300. -/
def _extract_pre (title : List Char) : Except PyError PreInfo :=
  match stripHeader (pySplitlines title) with
  | .error e => .error e
  | .ok (status, event_title, offset) =>
    match extractLoop initExtractState ((pySplitlines title).drop offset) with
    | .error e => .error e
    | .ok st =>
      .ok { summary := cleanupSummary st.summary, status := status,
            start_time := st.start_time, end_time := st.end_time,
            location := st.location, description := st.description,
            groups := st.groups, ressources := st.ressources,
            event_title := event_title, is_top := st.is_top }

/-- The tuple `_extract_lesson_info` returns. -/
structure ExtractResult where
  summary : List Char
  status : LessonStatus
  start_time : PyTimeVal
  end_time : PyTimeVal
  location : Option (List Char)
  description : Option (List Char)
  is_top : Bool
deriving DecidableEq, Repr

/-- Python truthiness of an optional string (`None` and `""` are falsy). -/
def pyTruthy : Option (List Char) → Bool
  | Option.none => false
  | some l => l ≠ []

/-- Source line 304: the `Ressoucer:` prefix added to the description. -/
def resDescription (p : PreInfo) : List Char :=
  if p.ressources ≠ [] then
    lchars "Ressoucer: " ++ p.ressources ++ lchars "\n\n" ++ p.description
  else p.description

/-- Source lines 305-306: the location appended to the summary. -/
def locSummary (p : PreInfo) : List Char :=
  if pyTruthy p.location then
    _append_section_to_summary (p.location.getD []) p.summary
  else p.summary

/-- The composition block of `_extract_lesson_info` (source lines
302-319), producing the returned tuple. -/
def _compose (p : PreInfo) : ExtractResult :=
  let d0 := resDescription p
  let s0 := locSummary p
  let sd :=
    if p.groups ≠ [] then
      let s1 := _prepend_section_to_summary p.groups s0
      if containsSub (lchars "Alle") p.groups = false then
        (s1, p.event_title ++ lchars "\n\n" ++ d0)
      else
        (_prepend_section_to_summary p.event_title s1, d0)
    else
      (_prepend_section_to_summary p.event_title s0, d0)
  { summary := sd.1, status := p.status, start_time := p.start_time,
    end_time := p.end_time, location := p.location,
    description := if sd.2 = [] then Option.none else some sd.2,
    is_top := p.is_top }

/-- `_extract_lesson_info` of the source. -/
def _extract_lesson_info (title : List Char) : Except PyError ExtractResult :=
  match _extract_pre title with
  | .error e => .error e
  | .ok p => .ok (_compose p)

example :
    _extract_lesson_info (lchars "14/3-2016 15:20 til 16:50\nLokale: 204\nHold: 1a") =
      .ok { summary := lchars "1a • 204",
            status := .normal,
            start_time := .dateTime ⟨2016, 3, 14⟩ ⟨15, 20⟩,
            end_time := .dateTime ⟨2016, 3, 14⟩ ⟨16, 50⟩,
            location := some (lchars "204"),
            description := some (lchars "\n\n"),
            is_top := false } := rfl

example :
    _extract_lesson_info (lchars "Aflyst!\nMath 1a\n14/3-2016 Hele dagen") =
      .ok { summary := lchars "Math 1a",
            status := .cancelled,
            start_time := .date ⟨2016, 3, 14⟩,
            end_time := .date ⟨2016, 3, 14⟩,
            location := Option.none,
            description := Option.none,
            is_top := true } := rfl

example : searchO timeCapsAt (lchars "x 14/3-2016 99:99 til 2/2-2016 10:00") =
    some ⟨lchars "14/3-2016",
          some (lchars "99:99", some (lchars "2/2-2016"), lchars "10:00")⟩ := rfl

example : searchO timeCapsAt (lchars "123/4-2016 bla") =
    some ⟨lchars "23/4-2016", Option.none⟩ := rfl

example : searchO timeCapsAt (lchars "a1/1-2016 10:00 til  11:00") =
    some ⟨lchars "1/1-2016",
          some (lchars "10:00", Option.none, lchars "11:00")⟩ := rfl

example : searchO timeCapsAt (lchars "12/3-20166 10:00 til 11:00") =
    some ⟨lchars "12/3-2016", Option.none⟩ := rfl

example :
    cleanupSummary (lchars "Lærere: AB • Lærer: John Doe(JD) • x") =
      lchars "AB • JD • x" := rfl

/-- Modelled from the spec: the canonical event record `lesson.Lesson`
(module `lectocal/lesson.py` is not part of the sources given); per the
data model, two Lessons are equal iff every field is equal, which is the
derived structural equality. -/
structure Lesson where
  id : Option (List Char)
  summary : List Char
  status : LessonStatus
  start_time : PyTimeVal
  end_time : PyTimeVal
  location : Option (List Char)
  description : Option (List Char)
  link : Option (List Char)
deriving DecidableEq, Repr

/-- One alternative of the id pattern: the literal parameter name, `=`,
then `(\d+)` (greedy, so the capture is the maximal digit run). -/
def idParamAt (name : String) (s : List Char) : Option (List Char) :=
  match dropLit (lchars name) s with
  | some ('=' :: r) =>
    let ds := r.takeWhile (·.isDigit)
    if ds = [] then Option.none else some ds
  | _ => Option.none

/-- One attempt of the `_get_id_from_link` pattern
`(?:absid|ProeveholdId|outboundCensorID|aftaleid)=(\d+)` at the current
position, alternatives in pattern order. -/
def idAt (s : List Char) : Option (List Char) :=
  idParamAt "absid" s <|> idParamAt "ProeveholdId" s <|>
  idParamAt "outboundCensorID" s <|> idParamAt "aftaleid" s

/-- `_get_id_from_link` of the source: `None` when no pattern matches. -/
def _get_id_from_link (link : List Char) : Option (List Char) :=
  searchO idAt link

/-- `link.split("&prevurl=", 1)[0]`: the prefix before the first
occurrence of the separator (the whole string when absent). -/
def takeUntilLit (sep : List Char) : List Char → List Char
  | [] => []
  | c :: r =>
    if (dropLit sep (c :: r)).isSome then []
    else c :: takeUntilLit sep r

/-- `_get_complete_link` of the source. -/
def _get_complete_link (link : List Char) : List Char :=
  lchars "https://www.lectio.dk" ++ takeUntilLit (lchars "&prevurl=") link

/-- A schedule-tile element, reduced to the two attributes
`_parse_element_to_lesson` reads. -/
structure Element where
  href : Option (List Char)
  data_additionalinfo : List Char
deriving Repr

/-- Source lines 323-327: the id and the canonical link of an element
(`element.get` gives `None` for a missing attribute; an empty href string
is falsy, so it is kept untouched and yields no id). -/
def elementIdLink (href : Option (List Char)) :
    Option (List Char) × Option (List Char) :=
  match href with
  | some l =>
    if l ≠ [] then (_get_id_from_link l, some (_get_complete_link l))
    else (Option.none, some l)
  | Option.none => (Option.none, Option.none)

/-- The Lesson built at source line 337 from an element and its extracted
info. -/
def lessonOf (e : Element) (r : ExtractResult) : Lesson :=
  { id := (elementIdLink e.href).1, summary := r.summary, status := r.status,
    start_time := r.start_time, end_time := r.end_time,
    location := r.location, description := r.description,
    link := (elementIdLink e.href).2 }

/-- The `if not show_top and is_top / elif not show_cancelled and ... /
else` chain of `_parse_element_to_lesson` (source lines 332-337); `none`
models returning Python `None` (the lesson is filtered out). -/
def applyFilters (e : Element) (show_top show_cancelled : Bool)
    (r : ExtractResult) : Option Lesson :=
  if show_top = false ∧ r.is_top = true then Option.none
  else if show_cancelled = false ∧ r.status = .cancelled then Option.none
  else some (lessonOf e r)

/-- `_parse_element_to_lesson` of the source. -/
def _parse_element_to_lesson (e : Element) (show_top show_cancelled : Bool) :
    Except PyError (Option Lesson) :=
  match _extract_lesson_info e.data_additionalinfo with
  | .error err => .error err
  | .ok r => .ok (applyFilters e show_top show_cancelled r)

/-- The accumulating loop of `_filter_for_duplicates`
(`if lesson not in filtered_schedule: filtered_schedule.append(lesson)`). -/
def filterDupGo {α : Type} [DecidableEq α] (filtered : List α) : List α → List α
  | [] => filtered
  | l :: rest =>
    if l ∈ filtered then filterDupGo filtered rest
    else filterDupGo (filtered ++ [l]) rest

/-- `_filter_for_duplicates` of the source. -/
def _filter_for_duplicates (schedule : List Lesson) : List Lesson :=
  filterDupGo [] schedule

/-- First-occurrence deduplication, stated the way §4.5 of the spec reads:
scan in order, keep the first occurrence of each distinct element, drop
every later structural duplicate. -/
def dedupFirst {α : Type} [DecidableEq α] : List α → List α
  | [] => []
  | a :: r => a :: dedupFirst (r.filter (fun x => x ≠ a))
termination_by l => l.length
decreasing_by
  simp only [List.length_cons]
  exact Nat.lt_succ_of_le (List.length_filter_le _ _)

theorem mem_dedupFirst {α : Type} [DecidableEq α] {x : α} :
    ∀ {l : List α}, x ∈ dedupFirst l ↔ x ∈ l := by
  intro l
  induction l using dedupFirst.induct with
  | case1 => simp [dedupFirst]
  | case2 a r ih =>
    rw [dedupFirst, List.mem_cons, ih, List.mem_filter]
    by_cases hx : x = a
    · simp [hx]
    · simp [hx]

theorem count_dedupFirst {α : Type} [DecidableEq α] (x : α) :
    ∀ l : List α, (dedupFirst l).count x = if x ∈ l then 1 else 0 := by
  intro l
  induction l using dedupFirst.induct with
  | case1 => simp [dedupFirst]
  | case2 a r ih =>
    rw [dedupFirst]
    by_cases hx : x = a
    · subst hx
      have hnm : x ∉ dedupFirst (r.filter (fun y => y ≠ x)) := by
        rw [mem_dedupFirst]
        simp [List.mem_filter]
      rw [List.count_cons, List.count_eq_zero.mpr hnm]
      simp
    · rw [List.count_cons, ih]
      have hmem : (x ∈ List.filter (fun y => decide (y ≠ a)) r) ↔ x ∈ r := by
        simp [List.mem_filter, hx]
      rw [if_congr hmem rfl rfl]
      have hbeq : (a == x) = false := beq_eq_false_iff_ne.mpr (Ne.symm hx)
      simp only [List.mem_cons, hbeq]
      by_cases hr : x ∈ r
      · simp [hr, hx]
      · simp [hr, hx]

theorem sublist_dedupFirst {α : Type} [DecidableEq α] :
    ∀ l : List α, (dedupFirst l).Sublist l := by
  intro l
  induction l using dedupFirst.induct with
  | case1 => simp [dedupFirst]
  | case2 a r ih =>
    rw [dedupFirst]
    exact (ih.trans (List.filter_sublist r)).cons₂ a

theorem nodup_dedupFirst {α : Type} [DecidableEq α] :
    ∀ l : List α, (dedupFirst l).Nodup := by
  intro l
  induction l using dedupFirst.induct with
  | case1 => simp [dedupFirst]
  | case2 a r ih =>
    rw [dedupFirst]
    refine List.nodup_cons.mpr ⟨?_, ih⟩
    rw [mem_dedupFirst]
    simp [List.mem_filter]

theorem dedupFirst_eq_self {α : Type} [DecidableEq α] :
    ∀ l : List α, l.Nodup → dedupFirst l = l := by
  intro l
  induction l using dedupFirst.induct with
  | case1 => simp [dedupFirst]
  | case2 a r ih =>
    intro hnd
    rw [dedupFirst]
    rcases List.nodup_cons.mp hnd with ⟨ha, hr⟩
    have hf : r.filter (fun y => y ≠ a) = r := by
      apply List.filter_eq_self.mpr
      intro x hx
      simp only [ne_eq, decide_not, Bool.not_eq_eq_eq_not, Bool.not_true,
        decide_eq_false_iff_not]
      exact fun h => ha (h ▸ hx)
    rw [hf] at ih ⊢
    rw [ih hr]

theorem filterDupGo_eq {α : Type} [DecidableEq α] :
    ∀ (r acc : List α),
      filterDupGo acc r = acc ++ dedupFirst (r.filter (fun x => x ∉ acc)) := by
  intro r
  induction r with
  | nil => intro acc; simp [filterDupGo, dedupFirst]
  | cons l rest ih =>
    intro acc
    by_cases hl : l ∈ acc
    · rw [filterDupGo, if_pos hl, ih]
      have : (l :: rest).filter (fun x => x ∉ acc) = rest.filter (fun x => x ∉ acc) := by
        rw [List.filter_cons]
        simp [hl]
      rw [this]
    · rw [filterDupGo, if_neg hl, ih]
      have h1 : (l :: rest).filter (fun x => x ∉ acc) =
          l :: rest.filter (fun x => x ∉ acc) := by
        rw [List.filter_cons]
        simp [hl]
      have h2 : rest.filter (fun x => x ∉ acc ++ [l]) =
          (rest.filter (fun x => x ∉ acc)).filter (fun x => x ≠ l) := by
        rw [List.filter_filter]
        apply List.filter_congr
        intro x _
        simp only [List.mem_append, List.mem_singleton, decide_not, ne_eq]
        by_cases hxa : x ∈ acc
        · simp [hxa]
        · by_cases hxl : x = l
          · simp [hxa, hxl]
          · simp [hxa, hxl]
      rw [h1, dedupFirst, h2, List.append_assoc]
      simp

theorem filter_for_duplicates_eq_dedupFirst (l : List Lesson) :
    _filter_for_duplicates l = dedupFirst l := by
  rw [_filter_for_duplicates, filterDupGo_eq]
  simp

theorem isSome_orElse {β : Type} (a b : Option β) :
    (a <|> b).isSome = (a.isSome || b.isSome) := by
  cases a <;> simp

theorem searchO_isSome_iff {β : Type} (m : List Char → Option β) (l : List Char) :
    (searchO m l).isSome = true ↔ ∃ s, s <:+ l ∧ (m s).isSome = true := by
  induction l with
  | nil =>
    simp only [searchO]
    constructor
    · intro h
      exact ⟨[], List.suffix_rfl, h⟩
    · rintro ⟨s, hs, hm⟩
      rw [List.suffix_nil.mp hs] at hm
      exact hm
  | cons c r ih =>
    simp only [searchO, isSome_orElse]
    constructor
    · intro h
      cases (Bool.or_eq_true _ _).mp h with
      | inl h1 => exact ⟨c :: r, List.suffix_rfl, h1⟩
      | inr h2 =>
        rcases ih.mp h2 with ⟨s, hs, hm⟩
        exact ⟨s, List.suffix_cons_iff.mpr (Or.inr hs), hm⟩
    · rintro ⟨s, hs, hm⟩
      cases List.suffix_cons_iff.mp hs with
      | inl he => subst he; simp [hm]
      | inr h2 =>
        have := ih.mpr ⟨s, h2, hm⟩
        simp [this]

theorem searchO_isSome_congr {β γ : Type} (m1 : List Char → Option β)
    (m2 : List Char → Option γ) (h : ∀ s, (m1 s).isSome = (m2 s).isSome)
    (l : List Char) : (searchO m1 l).isSome = (searchO m2 l).isSome := by
  induction l with
  | nil => simpa [searchO] using h []
  | cons c r ih =>
    simp only [searchO, isSome_orElse, h (c :: r), ih]

theorem searchO_of_here {β : Type} {m : List Char → Option β} {l : List Char}
    {b : β} (h : m l = some b) : searchO m l = some b := by
  cases l <;> simp [searchO, h]

theorem dropLit_isSome_iff {p s : List Char} :
    (dropLit p s).isSome = true ↔ p <+: s := by
  constructor
  · intro h
    rcases Option.isSome_iff_exists.mp h with ⟨r, hr⟩
    exact ⟨r, (dropLit_eq_some.mp hr).symm⟩
  · rintro ⟨t, ht⟩
    rw [dropLit_eq_some.mpr ht.symm]
    rfl

theorem containsSub_iff_infix {pat l : List Char} :
    containsSub pat l = true ↔ pat <:+: l := by
  unfold containsSub
  rw [searchO_isSome_iff]
  constructor
  · rintro ⟨s, hs, hm⟩
    rw [Option.isSome_map'] at hm
    exact List.infix_iff_prefix_suffix.mpr ⟨s, dropLit_isSome_iff.mp hm, hs⟩
  · intro h
    rcases List.infix_iff_prefix_suffix.mp h with ⟨t, hp, hs⟩
    refine ⟨t, hs, ?_⟩
    rw [Option.isSome_map']
    exact dropLit_isSome_iff.mpr hp

theorem dropLit_append (p q s : List Char) :
    dropLit (p ++ q) s = (dropLit p s).bind (dropLit q) := by
  induction p generalizing s with
  | nil => simp [dropLit]
  | cons a ps ih =>
    cases s with
    | nil => simp [dropLit]
    | cons c cs =>
      by_cases h : c = a
      · simp [dropLit, h, ih]
      · simp [dropLit, h]

/-- C3: the Schedule Merger keeps exactly one copy of each distinct Lesson
(count 1 for members, 0 otherwise), drops every later structural
duplicate, and never reorders first-seen entries: it equals the
first-occurrence scan `dedupFirst` and is a sublist of its input. -/
theorem claim_c3_schedule_merger (l : List Lesson) :
    _filter_for_duplicates l = dedupFirst l ∧
    (_filter_for_duplicates l).Sublist l ∧
    ∀ x : Lesson, (_filter_for_duplicates l).count x = if x ∈ l then 1 else 0 := by
  refine ⟨filter_for_duplicates_eq_dedupFirst l, ?_, ?_⟩
  · rw [filter_for_duplicates_eq_dedupFirst]
    exact sublist_dedupFirst l
  · intro x
    rw [filter_for_duplicates_eq_dedupFirst]
    exact count_dedupFirst x l

/-- C9: the Schedule Merger is idempotent: applied to its own output it
returns that output unchanged. -/
theorem claim_c9_dedup_idempotent (l : List Lesson) :
    _filter_for_duplicates (_filter_for_duplicates l) = _filter_for_duplicates l := by
  rw [filter_for_duplicates_eq_dedupFirst l,
    filter_for_duplicates_eq_dedupFirst (dedupFirst l)]
  exact dedupFirst_eq_self _ (nodup_dedupFirst l)

theorem locAt_isSome (s : List Char) :
    (locAt s).isSome =
      ((dropLit (lchars "Lokale: ") s).isSome ||
       (dropLit (lchars "Lokaler: ") s).isSome) := by
  have h1 : lchars "Lokaler: " = lchars "Lokale" ++ lchars "r: " := by decide
  have h2 : lchars "Lokale: " = lchars "Lokale" ++ lchars ": " := by decide
  rw [h1, h2, dropLit_append, dropLit_append]
  unfold locAt
  cases hd : dropLit (lchars "Lokale") s with
  | none => simp
  | some r =>
    simp only [Option.some_bind, isSome_orElse, Option.isSome_map']
    exact Bool.or_comm _ _

/-- C7, counterexample: `"Tekst med Lokale: 204"` does not begin with
`Lokale:`/`Lokaler:` (the marker only occurs later in the line), yet the
Line Classifier does classify it as a location line. -/
theorem claim_c7_counterexample :
    _is_location_line (lchars "Tekst med Lokale: 204") = true ∧
    (lchars "Lokale:").isPrefixOf (lchars "Tekst med Lokale: 204") = false ∧
    (lchars "Lokaler:").isPrefixOf (lchars "Tekst med Lokale: 204") = false := by
  refine ⟨rfl, rfl, rfl⟩

/-- C7, amended: a header-section line is classified as a location line
exactly when it contains `"Lokale: "` or `"Lokaler: "` (marker with its
trailing space) anywhere in the line, not only at the start. -/
theorem claim_c7_amended (line : List Char) :
    _is_location_line line = true ↔
      (lchars "Lokale: ") <:+: line ∨ (lchars "Lokaler: ") <:+: line := by
  unfold _is_location_line
  rw [searchO_isSome_iff]
  constructor
  · rintro ⟨s, hs, hm⟩
    rw [locAt_isSome] at hm
    cases (Bool.or_eq_true _ _).mp hm with
    | inl h1 =>
      exact Or.inl (List.infix_iff_prefix_suffix.mpr
        ⟨s, dropLit_isSome_iff.mp h1, hs⟩)
    | inr h2 =>
      exact Or.inr (List.infix_iff_prefix_suffix.mpr
        ⟨s, dropLit_isSome_iff.mp h2, hs⟩)
  · intro h
    cases h with
    | inl h1 =>
      rcases List.infix_iff_prefix_suffix.mp h1 with ⟨t, hp, hs⟩
      refine ⟨t, hs, ?_⟩
      rw [locAt_isSome]
      exact (Bool.or_eq_true _ _).mpr (Or.inl (dropLit_isSome_iff.mpr hp))
    | inr h2 =>
      rcases List.infix_iff_prefix_suffix.mp h2 with ⟨t, hp, hs⟩
      refine ⟨t, hs, ?_⟩
      rw [locAt_isSome]
      exact (Bool.or_eq_true _ _).mpr (Or.inr (dropLit_isSome_iff.mpr hp))

theorem locCapAt_isSome (s : List Char) :
    (locCapAt s).isSome = (locAt s).isSome := by
  unfold locCapAt locAt
  cases hd : dropLit (lchars "Lokale") s with
  | none => rfl
  | some r => simp [isSome_orElse]

/-- C5, counterexample: the raw block
`"14/3-2016 Hele dagen\nLokale: "` has a location marker with no following
text, yet extraction succeeds (with an empty location) instead of failing
with a malformed-input error. -/
theorem claim_c5_counterexample :
    _extract_lesson_info (lchars "14/3-2016 Hele dagen\nLokale: ") =
      .ok { summary := [],
            status := .normal,
            start_time := .date ⟨2016, 3, 14⟩,
            end_time := .date ⟨2016, 3, 14⟩,
            location := some [],
            description := Option.none,
            is_top := true } := rfl

/-- C5, amended: a location/groups/resources marker line always carries an
(possibly empty) extractable payload: whenever the Line Classifier
recognises the marker, the corresponding extraction function succeeds, so
a marker with no following text is silently accepted with an empty
payload and never raises a malformed-input error. -/
theorem claim_c5_amended :
    (∀ line : List Char, _is_location_line line = true →
      ∃ v, _get_location_from_line line = .ok v) ∧
    (∀ line : List Char, _is_groups_line line = true →
      _get_groups_from_line line = .ok ((line.drop 6).takeWhile (· ≠ '\n'))) ∧
    (∀ line : List Char, _is_ressources_line line = true →
      _get_ressources_from_line line = .ok ((line.drop 12).takeWhile (· ≠ '\n'))) := by
  refine ⟨?_, ?_, ?_⟩
  · intro line h
    unfold _is_location_line at h
    have h2 : (searchO locCapAt line).isSome = true := by
      rw [searchO_isSome_congr locCapAt locAt locCapAt_isSome line]
      exact h
    rcases Option.isSome_iff_exists.mp h2 with ⟨v, hv⟩
    refine ⟨v, ?_⟩
    unfold _get_location_from_line
    rw [hv]
  · intro line h
    unfold _is_groups_line at h
    have hp : lchars "Hold: " <+: line := List.isPrefixOf_iff_prefix.mp h
    rcases hp with ⟨t, ht⟩
    have hdl : dropLit (lchars "Hold: ") line = some t :=
      dropLit_eq_some.mpr ht.symm
    have ht6 : line.drop 6 = t := by
      rw [← ht]
      rfl
    have hm : (fun s => (dropLit (lchars "Hold: ") s).map
        (·.takeWhile (· ≠ '\n'))) line = some (t.takeWhile (· ≠ '\n')) := by
      simp only [hdl, Option.map_some']
    unfold _get_groups_from_line
    rw [searchO_of_here hm, ht6]
  · intro line h
    unfold _is_ressources_line at h
    have hp : lchars "Ressourcer: " <+: line := List.isPrefixOf_iff_prefix.mp h
    rcases hp with ⟨t, ht⟩
    have hdl : dropLit (lchars "Ressourcer: ") line = some t :=
      dropLit_eq_some.mpr ht.symm
    have ht12 : line.drop 12 = t := by
      rw [← ht]
      rfl
    have hm : (fun s => (dropLit (lchars "Ressourcer: ") s).map
        (·.takeWhile (· ≠ '\n'))) line = some (t.takeWhile (· ≠ '\n')) := by
      simp only [hdl, Option.map_some']
    unfold _get_ressources_from_line
    rw [searchO_of_here hm, ht12]

/-- C5, witness: the amended theorem applied to the three bare marker
lines. -/
theorem claim_c5_amended_witness :
    (∃ v, _get_location_from_line (lchars "Lokale: ") = .ok v) ∧
    _get_groups_from_line (lchars "Hold: ") = .ok [] ∧
    _get_ressources_from_line (lchars "Ressourcer: ") = .ok [] := by
  refine ⟨claim_c5_amended.1 (lchars "Lokale: ") (by decide), ?_, ?_⟩
  · exact claim_c5_amended.2.1 (lchars "Hold: ") (by decide)
  · exact claim_c5_amended.2.2 (lchars "Ressourcer: ") (by decide)

theorem compose_status (p : PreInfo) : (_compose p).status = p.status := rfl

theorem compose_start (p : PreInfo) : (_compose p).start_time = p.start_time := rfl

theorem compose_end (p : PreInfo) : (_compose p).end_time = p.end_time := rfl

theorem extract_lesson_info_ok {title : List Char} {r : ExtractResult}
    (h : _extract_lesson_info title = .ok r) :
    ∃ p, _extract_pre title = .ok p ∧ r = _compose p := by
  unfold _extract_lesson_info at h
  cases hp : _extract_pre title with
  | error e => rw [hp] at h; exact absurd h (by simp)
  | ok p =>
    rw [hp] at h
    simp only [Except.ok.injEq] at h
    exact ⟨p, rfl, h.symm⟩

theorem extract_pre_status {title : List Char} {p : PreInfo}
    (h : _extract_pre title = .ok p) :
    ∃ et off, stripHeader (pySplitlines title) = .ok (p.status, et, off) := by
  unfold _extract_pre at h
  split at h
  · exact absurd h (by simp)
  · rename_i st et off heq
    split at h
    · exact absurd h (by simp)
    · rename_i stt hloop
      simp only [Except.ok.injEq] at h
      refine ⟨et, off, ?_⟩
      rw [← h]
      exact heq

theorem stripHeader_short {lines : List (List Char)} (h : lines.length < 2) :
    stripHeader lines = .ok (.normal, [], 0) := by
  unfold stripHeader
  rw [if_neg]
  omega

theorem stripHeader_not_status {lines : List (List Char)}
    {st : LessonStatus} {et : List Char} {off : Nat}
    (h : stripHeader lines = .ok (st, et, off))
    (hns : _is_status_line (lines.getD 0 []) = false) : st = .normal := by
  unfold stripHeader at h
  split at h
  · rw [hns] at h
    simp only [Bool.false_eq_true, if_false] at h
    split at h <;> simp only [Except.ok.injEq, Prod.mk.injEq] at h <;>
      exact h.1.symm
  · simp only [Except.ok.injEq, Prod.mk.injEq] at h
    exact h.1.symm

theorem stripHeader_status_cases {lines : List (List Char)}
    {st : LessonStatus} {et : List Char} {off : Nat}
    (h : stripHeader lines = .ok (st, et, off)) :
    st = .normal ∨ _get_status_from_line (lines.getD 0 []) = .ok st := by
  unfold stripHeader at h
  split at h
  · split at h
    · split at h
      · exact Except.noConfusion h
      · rename_i st2 hg
        split at h
        · simp only [Except.ok.injEq, Prod.mk.injEq] at h
          exact Or.inr (h.1 ▸ hg)
        · simp only [Except.ok.injEq, Prod.mk.injEq] at h
          exact Or.inr (h.1 ▸ hg)
    · split at h <;> simp only [Except.ok.injEq, Prod.mk.injEq] at h <;>
        exact Or.inl h.1.symm
  · simp only [Except.ok.injEq, Prod.mk.injEq] at h
    exact Or.inl h.1.symm

theorem get_status_changed {l : List Char}
    (h : _get_status_from_line l = .ok .changed) : l = lchars "Ændret!" := by
  unfold _get_status_from_line at h
  split at h
  · assumption
  · split at h <;> simp at h

theorem get_status_cancelled {l : List Char}
    (h : _get_status_from_line l = .ok .cancelled) : l = lchars "Aflyst!" := by
  unfold _get_status_from_line at h
  split at h
  · simp at h
  · split at h
    · assumption
    · simp at h

/-- C10: a raw block of fewer than two lines gets no status/title
stripping: the status is `normal` whatever the line is, and a single line
that equals a status marker is handled by the ordinary header-line
classification, i.e. appended to the summary (the composition step then
prepends the empty event title, which adds a leading spacer). -/
theorem claim_c10_short_block :
    (∀ (title : List Char) (r : ExtractResult),
      (pySplitlines title).length < 2 →
      _extract_lesson_info title = .ok r → r.status = .normal) ∧
    _extract_lesson_info (lchars "Aflyst!") =
      .ok { summary := lchars " • Aflyst!",
            status := .normal,
            start_time := .none,
            end_time := .none,
            location := Option.none,
            description := Option.none,
            is_top := false } := by
  constructor
  · intro title r hlen h
    rcases extract_lesson_info_ok h with ⟨p, hp, hr⟩
    rcases extract_pre_status hp with ⟨et, off, hs⟩
    rw [stripHeader_short hlen] at hs
    simp only [Except.ok.injEq, Prod.mk.injEq] at hs
    rw [hr, compose_status, ← hs.1]
  · rfl

/-- C10, witness: the first conjunct applied to the one-line block
`"Aflyst!"`. -/
theorem claim_c10_short_block_witness :
    (ExtractResult.status
      { summary := lchars " • Aflyst!", status := .normal,
        start_time := .none, end_time := .none, location := Option.none,
        description := Option.none, is_top := false }) = .normal := by
  exact claim_c10_short_block.1 (lchars "Aflyst!") _ (by decide) rfl

/-- C4, counterexample: the leading line `"Aflyst! i dag"` is not equal to
a recognized marker, but because it contains `"Aflyst!"` as a substring
the extractor raises `InvalidStatusError` instead of yielding status
`normal`. -/
theorem claim_c4_counterexample :
    _extract_lesson_info (lchars "Aflyst! i dag\n14/3-2016 Hele dagen") =
      .error .invalidStatus := rfl

/-- C4, amended: the status is `changed`/`cancelled` only when the leading
line equals the corresponding marker; a leading line that is absent or
does not contain either marker as a substring yields `normal`; but a
leading line that contains a marker without being equal to one raises an
invalid-status error (it does not fall back to `normal`). -/
theorem claim_c4_amended :
    (∀ (title : List Char) (r : ExtractResult),
      _extract_lesson_info title = .ok r →
      (r.status = .changed → (pySplitlines title).getD 0 [] = lchars "Ændret!") ∧
      (r.status = .cancelled → (pySplitlines title).getD 0 [] = lchars "Aflyst!")) ∧
    (∀ (title : List Char) (r : ExtractResult),
      _is_status_line ((pySplitlines title).getD 0 []) = false →
      _extract_lesson_info title = .ok r → r.status = .normal) ∧
    (∀ title : List Char,
      (pySplitlines title).length ≥ 2 →
      _is_status_line ((pySplitlines title).getD 0 []) = true →
      (pySplitlines title).getD 0 [] ≠ lchars "Ændret!" →
      (pySplitlines title).getD 0 [] ≠ lchars "Aflyst!" →
      _extract_lesson_info title = .error .invalidStatus) := by
  refine ⟨?_, ?_, ?_⟩
  · intro title r h
    rcases extract_lesson_info_ok h with ⟨p, hp, hr⟩
    rcases extract_pre_status hp with ⟨et, off, hs⟩
    constructor
    · intro hch
      have hps : p.status = .changed := by
        rw [hr, compose_status] at hch
        exact hch
      rw [hps] at hs
      cases stripHeader_status_cases hs with
      | inl hn => exact absurd hn (by simp)
      | inr hg => exact get_status_changed hg
    · intro hca
      have hps : p.status = .cancelled := by
        rw [hr, compose_status] at hca
        exact hca
      rw [hps] at hs
      cases stripHeader_status_cases hs with
      | inl hn => exact absurd hn (by simp)
      | inr hg => exact get_status_cancelled hg
  · intro title r hns h
    rcases extract_lesson_info_ok h with ⟨p, hp, hr⟩
    rcases extract_pre_status hp with ⟨et, off, hs⟩
    rw [hr, compose_status]
    exact stripHeader_not_status hs hns
  · intro title hlen hst h1 h2
    have hg : _get_status_from_line ((pySplitlines title).getD 0 []) =
        .error .invalidStatus := by
      unfold _get_status_from_line
      rw [if_neg h1, if_neg h2]
    have hsh : stripHeader (pySplitlines title) = .error .invalidStatus := by
      unfold stripHeader
      rw [if_pos hlen, if_pos hst, hg]
    unfold _extract_lesson_info _extract_pre
    rw [hsh]

/-- C4, witness: the amended theorem's error clause applied to a block
whose leading line contains a marker without equaling it. -/
theorem claim_c4_amended_witness :
    _extract_lesson_info (lchars "Ændret! nu\n1/1-2016 Hele dagen") =
      .error .invalidStatus := by
  exact claim_c4_amended.2.2 (lchars "Ændret! nu\n1/1-2016 Hele dagen")
    (by decide) (by decide) (by decide) (by decide)

theorem extractLoop_desc {rem : List (List Char)} {st2 : ExtractState} :
    ∀ st : ExtractState, st.header_section = false →
    extractLoop st rem = .ok st2 →
    st2.start_time = st.start_time ∧ st2.end_time = st.end_time := by
  induction rem with
  | nil =>
    intro st _ h
    unfold extractLoop at h
    simp only [Except.ok.injEq] at h
    rw [← h]
    exact ⟨rfl, rfl⟩
  | cons line rest ih =>
    intro st hhs h
    unfold extractLoop at h
    split at h
    · rename_i hcond
      rw [hhs] at hcond
      exact Bool.noConfusion hcond
    · simpa using ih
        { st with description := _add_line_to_text line st.description } hhs h

theorem extractLoop_header_no_time {rem : List (List Char)} {st2 : ExtractState} :
    ∀ st : ExtractState, st.header_section = true →
    (∀ l ∈ rem.takeWhile (fun l => l ≠ []), _is_time_line l = false) →
    extractLoop st rem = .ok st2 →
    st2.start_time = st.start_time ∧ st2.end_time = st.end_time := by
  induction rem with
  | nil =>
    intro st _ _ h
    unfold extractLoop at h
    simp only [Except.ok.injEq] at h
    rw [← h]
    exact ⟨rfl, rfl⟩
  | cons line rest ih =>
    intro st hhs hno h
    unfold extractLoop at h
    split at h
    · split at h
      · simpa using
          extractLoop_desc { st with header_section := false } rfl h
      · rename_i hlinene
        have htw : (line :: rest).takeWhile (fun l => l ≠ []) =
            line :: rest.takeWhile (fun l => l ≠ []) := by
          simp [List.takeWhile_cons, hlinene]
        have hline : _is_time_line line = false :=
          hno line (by rw [htw]; exact List.mem_cons_self line _)
        have hrest : ∀ l ∈ rest.takeWhile (fun l => l ≠ []),
            _is_time_line l = false :=
          fun l hl => hno l (by rw [htw]; exact List.mem_cons_of_mem line hl)
        split at h
        · rename_i htime
          exact absurd htime (by simp [hline])
        · split at h
          · split at h
            · exact Except.noConfusion h
            · rename_i l hgl
              simpa using ih { st with location := some l } hhs hrest h
          · split at h
            · split at h
              · exact Except.noConfusion h
              · rename_i g hgg
                simpa using ih { st with groups := g } hhs hrest h
            · split at h
              · split at h
                · exact Except.noConfusion h
                · rename_i rs hgr
                  simpa using ih { st with ressources := rs } hhs hrest h
              · simpa using ih
                  { st with
                    summary := _append_section_to_summary line st.summary }
                  hhs hrest h
    · rename_i hcond
      exact absurd hhs hcond

theorem extract_pre_inv {title : List Char} {p : PreInfo}
    (h : _extract_pre title = .ok p) :
    ∃ st et off, stripHeader (pySplitlines title) = .ok (p.status, et, off) ∧
      extractLoop initExtractState ((pySplitlines title).drop off) = .ok st ∧
      p.start_time = st.start_time ∧ p.end_time = st.end_time := by
  unfold _extract_pre at h
  split at h
  · exact Except.noConfusion h
  · rename_i st et off heq
    split at h
    · exact Except.noConfusion h
    · rename_i stt hloop
      simp only [Except.ok.injEq] at h
      refine ⟨stt, et, off, ?_, hloop, ?_, ?_⟩
      · rw [← h]
        exact heq
      · rw [← h]
      · rw [← h]

/-- C6, counterexample: the raw block `"Matematik"` has no time-range line
in its header section, yet extraction silently succeeds and produces a
result with absent start and end instead of failing with a
malformed-input error. -/
theorem claim_c6_counterexample :
    _extract_lesson_info (lchars "Matematik") =
      .ok { summary := lchars " • Matematik",
            status := .normal,
            start_time := .none,
            end_time := .none,
            location := Option.none,
            description := Option.none,
            is_top := false } := rfl

/-- Boundary of the classified header section: the stripping step consumes
the blank second line as the (empty) event title, so the date line after
it is still classified in header mode and start/end do get set, even
though the block's nominal header section (before the first blank line)
contains no time-range line. -/
example :
    _extract_lesson_info (lchars "Aflyst!

14/3-2016 Hele dagen") =
      .ok { summary := [],
            status := .cancelled,
            start_time := .date ⟨2016, 3, 14⟩,
            end_time := .date ⟨2016, 3, 14⟩,
            location := Option.none,
            description := Option.none,
            is_top := true } := rfl

/-- C6, amended: a raw block whose classified header section — the lines
after the status/title stripping offset up to the first blank line among
them, which are exactly the lines the extractor classifies in header mode
— contains no time-range line is not rejected: whenever extraction
returns a result at all, that result silently carries absent (`None`)
start and end values.  (The stripping step can consume a blank line as
the event title, so the classified header section can extend past the
raw block's first blank line.) -/
theorem claim_c6_amended (title : List Char) (r : ExtractResult)
    (st0 : LessonStatus) (et : List Char) (off : Nat)
    (hsh : stripHeader (pySplitlines title) = .ok (st0, et, off))
    (hno : ∀ l ∈ ((pySplitlines title).drop off).takeWhile (fun l => l ≠ []),
      _is_time_line l = false)
    (h : _extract_lesson_info title = .ok r) :
    r.start_time = .none ∧ r.end_time = .none := by
  rcases extract_lesson_info_ok h with ⟨p, hp, hr⟩
  rcases extract_pre_inv hp with ⟨st, et2, off2, hs, hloop, h1, h2⟩
  rw [hsh] at hs
  simp only [Except.ok.injEq, Prod.mk.injEq] at hs
  obtain ⟨hst0, het, hoff⟩ := hs
  rw [← hoff] at hloop
  rcases extractLoop_header_no_time initExtractState rfl hno hloop with ⟨he1, he2⟩
  constructor
  · rw [hr, compose_start, h1, he1]
    rfl
  · rw [hr, compose_end, h2, he2]
    rfl

/-- C6, witness: the amended theorem applied to the block
`"Matematik\n\n14/3-2016 Hele dagen"`, whose classified header section
(`[]`, the blank line ends it at once after the title offset) has no
time-range line even though the description section does. -/
theorem claim_c6_amended_witness :
    ∃ r, _extract_lesson_info (lchars "Matematik\n\n14/3-2016 Hele dagen") =
        .ok r ∧ r.start_time = .none ∧ r.end_time = .none := by
  refine ⟨_, rfl, ?_⟩
  exact claim_c6_amended (lchars "Matematik\n\n14/3-2016 Hele dagen") _
    .normal (lchars "Matematik") 1 rfl (by decide) rfl

/-- C8: the Lesson Filter discards a lesson exactly per the two policy
flags: header-only lessons are dropped when `show_top` is false, cancelled
lessons are dropped when `show_cancelled` is false, and anything else is
retained as the constructed Lesson. -/
theorem claim_c8_lesson_filter (e : Element) (show_top show_cancelled : Bool)
    (r : ExtractResult)
    (h : _extract_lesson_info e.data_additionalinfo = .ok r) :
    (show_top = false ∧ r.is_top = true →
      _parse_element_to_lesson e show_top show_cancelled = .ok Option.none) ∧
    (show_cancelled = false ∧ r.status = .cancelled →
      _parse_element_to_lesson e show_top show_cancelled = .ok Option.none) ∧
    (¬(show_top = false ∧ r.is_top = true) →
     ¬(show_cancelled = false ∧ r.status = .cancelled) →
      _parse_element_to_lesson e show_top show_cancelled =
        .ok (some (lessonOf e r))) := by
  have hok : _parse_element_to_lesson e show_top show_cancelled =
      .ok (applyFilters e show_top show_cancelled r) := by
    unfold _parse_element_to_lesson
    rw [h]
  rw [hok]
  unfold applyFilters
  refine ⟨?_, ?_, ?_⟩
  · intro hc
    rw [if_pos hc]
  · intro hc
    by_cases h1 : show_top = false ∧ r.is_top = true
    · rw [if_pos h1]
    · rw [if_neg h1, if_pos hc]
  · intro h1 h2
    rw [if_neg h1, if_neg h2]

/-- C8, witness: a cancelled all-day lesson is retained when both flags are
true. -/
theorem claim_c8_lesson_filter_witness :
    _parse_element_to_lesson
        ⟨Option.none, lchars "Aflyst!\nMath 1a\n14/3-2016 Hele dagen"⟩ true true =
      .ok (some { id := Option.none, summary := lchars "Math 1a",
                  status := .cancelled,
                  start_time := .date ⟨2016, 3, 14⟩,
                  end_time := .date ⟨2016, 3, 14⟩,
                  location := Option.none, description := Option.none,
                  link := Option.none }) := by
  exact (claim_c8_lesson_filter
    ⟨Option.none, lchars "Aflyst!\nMath 1a\n14/3-2016 Hele dagen"⟩ true true
    { summary := lchars "Math 1a", status := .cancelled,
      start_time := .date ⟨2016, 3, 14⟩, end_time := .date ⟨2016, 3, 14⟩,
      location := Option.none, description := Option.none, is_top := true }
    rfl).2.2 (by decide) (by decide)

theorem compose_groups_noAlle {p : PreInfo} (hg : p.groups ≠ [])
    (hA : containsSub (lchars "Alle") p.groups = false) :
    _compose p =
      { summary := _prepend_section_to_summary p.groups (locSummary p),
        status := p.status, start_time := p.start_time,
        end_time := p.end_time, location := p.location,
        description := some (p.event_title ++ lchars "\n\n" ++ resDescription p),
        is_top := p.is_top } := by
  have hne : p.event_title ++ lchars "\n\n" ++ resDescription p ≠ [] := by
    intro hcon
    rw [List.append_assoc] at hcon
    rcases List.append_eq_nil.mp hcon with ⟨h1, h2⟩
    rcases List.append_eq_nil.mp h2 with ⟨h3, h4⟩
    exact absurd h3 (by decide)
  unfold _compose
  simp only [if_pos hg, if_pos hA, if_neg hne]

theorem compose_groups_alle {p : PreInfo} (hg : p.groups ≠ [])
    (hA : containsSub (lchars "Alle") p.groups = true) :
    _compose p =
      { summary := _prepend_section_to_summary p.event_title
          (_prepend_section_to_summary p.groups (locSummary p)),
        status := p.status, start_time := p.start_time,
        end_time := p.end_time, location := p.location,
        description := if resDescription p = [] then Option.none
          else some (resDescription p),
        is_top := p.is_top } := by
  have hA2 : ¬ containsSub (lchars "Alle") p.groups = false := by
    rw [hA]
    simp
  unfold _compose
  simp only [if_pos hg, if_neg hA2]

/-- C2: for a raw block extracted with non-empty `groups`, the composition
prepends `groups` to the summary; when `groups` does not contain `"Alle"`
the event title (plus two newlines) is prepended to the description and
not to the summary, and when it does contain `"Alle"` the event title is
prepended to the summary instead. -/
theorem claim_c2_groups_composition (title : List Char) (p : PreInfo)
    (h : _extract_pre title = .ok p) (hg : p.groups ≠ []) :
    _extract_lesson_info title = .ok (_compose p) ∧
    (containsSub (lchars "Alle") p.groups = false →
      (_compose p).summary =
        _prepend_section_to_summary p.groups (locSummary p) ∧
      (_compose p).description =
        some (p.event_title ++ lchars "\n\n" ++ resDescription p)) ∧
    (containsSub (lchars "Alle") p.groups = true →
      (_compose p).summary =
        _prepend_section_to_summary p.event_title
          (_prepend_section_to_summary p.groups (locSummary p)) ∧
      (_compose p).description =
        (if resDescription p = [] then Option.none
         else some (resDescription p))) := by
  refine ⟨?_, ?_, ?_⟩
  · unfold _extract_lesson_info
    rw [h]
  · intro hA
    rw [compose_groups_noAlle hg hA]
    exact ⟨rfl, rfl⟩
  · intro hA
    rw [compose_groups_alle hg hA]
    exact ⟨rfl, rfl⟩

/-- C2, witness: the theorem applied to the block
`"Fysik time\nHold: 1a\n14/3-2016 Hele dagen"`, whose groups value `"1a"`
does not contain `"Alle"`. -/
theorem claim_c2_groups_composition_witness :
    (_compose ⟨[], .normal, .date ⟨2016, 3, 14⟩, .date ⟨2016, 3, 14⟩,
        Option.none, [], lchars "1a", [], lchars "Fysik time", true⟩).summary =
      _prepend_section_to_summary (lchars "1a")
        (locSummary ⟨[], .normal, .date ⟨2016, 3, 14⟩, .date ⟨2016, 3, 14⟩,
          Option.none, [], lchars "1a", [], lchars "Fysik time", true⟩) ∧
    (_compose ⟨[], .normal, .date ⟨2016, 3, 14⟩, .date ⟨2016, 3, 14⟩,
        Option.none, [], lchars "1a", [], lchars "Fysik time", true⟩).description =
      some (lchars "Fysik time" ++ lchars "\n\n" ++
        resDescription ⟨[], .normal, .date ⟨2016, 3, 14⟩, .date ⟨2016, 3, 14⟩,
          Option.none, [], lchars "1a", [], lchars "Fysik time", true⟩) := by
  exact (claim_c2_groups_composition
    (lchars "Fysik time\nHold: 1a\n14/3-2016 Hele dagen")
    ⟨[], .normal, .date ⟨2016, 3, 14⟩, .date ⟨2016, 3, 14⟩,
      Option.none, [], lchars "1a", [], lchars "Fysik time", true⟩
    rfl (by decide)).2.1 rfl

/-- C1, counterexample: `"31/2-2016 Hele dagen"` is recognized as a
time-range line, but the Time-Range Parser does not return a triple for
it: the captured date is not a valid calendar date, so `strptime` raises
`ValueError`. -/
theorem claim_c1_counterexample :
    _is_time_line (lchars "31/2-2016 Hele dagen") = true ∧
    _get_time_from_line (lchars "31/2-2016 Hele dagen") =
      .error .valueError := ⟨rfl, rfl⟩

/-- C1, amended: for every line recognized as a time-range line on which
the capture groups denote valid calendar dates and clock times, the
Time-Range Parser returns `(start, end, is_top)` with: the end date
defaulting to the start date when group 3 is absent; a date-only end when
the end time is absent; date-only start and end both equal to the start
date plus `is_top = true` when the start time is absent (in which case
groups 3 and 4 are structurally absent as well); and combined date-times
from the respective dates when both times are present. -/
theorem claim_c1_time_rules (line : List Char) (caps : TimeCaps)
    (sd : PyDate) (st : Option PyTime) (ed : Option PyDate) (et : Option PyTime)
    (_hT : _is_time_line line = true)
    (hc : searchO timeCapsAt line = some caps)
    (h1 : _get_date_from_match (some caps.g1) = .ok (some sd))
    (h2 : _get_time_from_match caps.group2 = .ok st)
    (h3 : _get_date_from_match caps.group3 = .ok ed)
    (h4 : _get_time_from_match caps.group4 = .ok et) :
    _get_time_from_line line =
      .ok ((match st with
            | some t => PyTimeVal.dateTime sd t
            | Option.none => PyTimeVal.date sd),
           (match et with
            | some t => PyTimeVal.dateTime (ed.getD sd) t
            | Option.none => PyTimeVal.date (ed.getD sd)),
           st.isNone) ∧
    (caps.group2 = Option.none →
      st = Option.none ∧ ed = Option.none ∧ et = Option.none) := by
  constructor
  · unfold _get_time_from_line
    rw [hc]
    simp only [h1, h2, h3, h4]
    cases st <;> cases ed <;> cases et <;>
      simp [combineOpt, pyOfDate, Option.getD, Option.isNone, Except.map]
  · intro hg2
    have h34 : caps.group3 = Option.none ∧ caps.group4 = Option.none := by
      unfold TimeCaps.group2 at hg2
      unfold TimeCaps.group3 TimeCaps.group4
      cases hr : caps.rest with
      | none => simp
      | some v => rw [hr] at hg2; simp at hg2
    rw [hg2] at h2
    rw [h34.1] at h3
    rw [h34.2] at h4
    unfold _get_time_from_match at h2 h4
    unfold _get_date_from_match at h3
    simp only [Except.ok.injEq] at h2 h3 h4
    exact ⟨h2.symm, h3.symm, h4.symm⟩

/-- C1, witness: the amended theorem applied to the multi-day line
`"8/4-2016 17:30 til 9/4-2016 01:00"`. -/
theorem claim_c1_time_rules_witness :
    _get_time_from_line (lchars "8/4-2016 17:30 til 9/4-2016 01:00") =
      .ok (.dateTime ⟨2016, 4, 8⟩ ⟨17, 30⟩,
           .dateTime ⟨2016, 4, 9⟩ ⟨1, 0⟩, false) := by
  exact (claim_c1_time_rules (lchars "8/4-2016 17:30 til 9/4-2016 01:00")
    ⟨lchars "8/4-2016", some (lchars "17:30", some (lchars "9/4-2016"), lchars "01:00")⟩
    ⟨2016, 4, 8⟩ (some ⟨17, 30⟩) (some ⟨2016, 4, 9⟩) (some ⟨1, 0⟩)
    rfl rfl rfl rfl rfl rfl).1
